import Mathlib

/-!
Verification development for the ai-digest file-classification and
digest-assembly pipeline.  The definitions below are a shallow embedding of
the TypeScript sources (`src/digest.ts` and `src/utils.ts`): pure string
helpers are translated directly; filesystem results (stat size, binary
sniffing, read outcomes) are fields of an explicit per-file record; the
gitignore-style matchers from the external `ignore` library are opaque
Boolean-valued parameters.  JavaScript strings are modelled at the Unicode
scalar-value level (Lean `String`), and `Buffer.byteLength` as the sum of
UTF-8 code-unit widths.
-/

namespace AiDigest

/-- Backtick character, written via a string literal. -/
def backtick : Char := "`".data.headD ' '

/-- Backslash character. -/
def backslash : Char := '\\'

/-- Membership test for the JavaScript regular-expression class `\s`
(whitespace), by code point. -/
def isJsWhitespace (c : Char) : Bool :=
  let n := c.toNat
  n == 9 || n == 10 || n == 11 || n == 12 || n == 13 || n == 32 ||
  n == 0xa0 || n == 0x1680 || (0x2000 ≤ n && n ≤ 0x200a) ||
  n == 0x2028 || n == 0x2029 || n == 0x202f || n == 0x205f ||
  n == 0x3000 || n == 0xfeff

/-- Scanner for `val.replace(/\s+/g, " ")`: emit one space at the start
of each maximal run of `\s` characters (`inRun` records whether the
previous character belonged to a run). -/
def collapseWsAux : Bool → List Char → List Char
  | _, [] => []
  | inRun, c :: rest =>
    if isJsWhitespace c then
      if inRun then collapseWsAux true rest
      else ' ' :: collapseWsAux true rest
    else
      c :: collapseWsAux false rest

/-- Collapse every maximal run of `\s` characters to a single space,
modelling `val.replace(/\s+/g, " ")` from `removeWhitespace` in
`src/utils.ts`. -/
def collapseWs (l : List Char) : List Char :=
  collapseWsAux false l

/-- Strip leading and trailing `\s` characters, modelling
`String.prototype.trim`. -/
def trimJs (l : List Char) : List Char :=
  ((l.dropWhile isJsWhitespace).reverse.dropWhile isJsWhitespace).reverse

/-- Embedding of `removeWhitespace` from `src/utils.ts`:
`val.replace(/\s+/g, " ").trim()`. -/
def removeWhitespace (val : String) : String :=
  String.mk (trimJs (collapseWs val.data))

/-- Left-to-right global replacement of the pattern <three backticks> by
<backslash backtick, three times>, modelling the scan performed by
`content.replace(/\x60\x60\x60/g, "\\\x60\\\x60\\\x60")`. -/
def escapeTB : List Char → List Char
  | c1 :: c2 :: c3 :: rest =>
    if c1 = backtick ∧ c2 = backtick ∧ c3 = backtick then
      backslash :: backtick :: backslash :: backtick :: backslash :: backtick ::
        escapeTB rest
    else
      c1 :: escapeTB (c2 :: c3 :: rest)
  | l => l

/-- Embedding of `escapeTripleBackticks` from `src/utils.ts`. -/
def escapeTripleBackticks (content : String) : String :=
  String.mk (escapeTB content.data)

/-- UTF-8 byte length of a string, modelling `Buffer.byteLength` on a
JavaScript string whose code units form well-formed Unicode scalar
values. -/
def byteLength (s : String) : Nat :=
  (s.data.map Char.utf8Size).sum

/-- Scanner producing the collation key for the numeric-aware comparison:
each maximal digit run becomes the pair of elements `0, value`, every
other character the pair `1, lower-cased code point`.  The state carries
the value of the digit run in progress, if any.  Flattening each token to
two list elements makes plain lexicographic order on `List Nat` coincide
with the intended token order (numbers compare by value and sort before
non-digit characters, other characters compare case-insensitively). -/
def naturalKeyScan : Option Nat → List Char → List Nat
  | none, [] => []
  | some v, [] => [0, v]
  | none, c :: rest =>
    if c.isDigit then
      naturalKeyScan (some (c.toNat - 48)) rest
    else
      1 :: c.toLower.toNat :: naturalKeyScan none rest
  | some v, c :: rest =>
    if c.isDigit then
      naturalKeyScan (some (v * 10 + (c.toNat - 48))) rest
    else
      0 :: v :: 1 :: c.toLower.toNat :: naturalKeyScan none rest

/-- Collation key of a string. -/
def naturalKey (s : String) : List Nat :=
  naturalKeyScan none s.data

/-- Lexicographic comparison of collation keys. -/
def keyCmp : List Nat → List Nat → Ordering
  | [], [] => .eq
  | [], _ :: _ => .lt
  | _ :: _, [] => .gt
  | a :: as, b :: bs =>
    if a < b then .lt else if b < a then .gt else keyCmp as bs

/-- Model of `naturalSort` from `src/utils.ts`, that is of
`a.localeCompare(b, undefined, e)` where `e` requests numeric ordering and
base sensitivity, restricted to the ASCII inputs the pipeline compares:
digit runs compare by numeric value and sort before letters, other
characters compare by lower-cased code point.  The `Ordering` value stands
for the sign of the returned number. -/
def naturalSortCmp (a b : String) : Ordering :=
  keyCmp (naturalKey a) (naturalKey b)

/-- The comparator `naturalSort a b <= 0`, the form consumed by a sort. -/
def naturalSortLe (a b : String) : Bool :=
  match naturalSortCmp a b with
  | .gt => false
  | _ => true

/-- Boolean form of key comparison, `keyCmp a b /= gt`. -/
def keyLe (a b : List Nat) : Bool :=
  match keyCmp a b with
  | .gt => false
  | _ => true

theorem keyCmp_nil_left (b : List Nat) : keyCmp [] b ≠ .gt := by
  cases b <;> simp [keyCmp]

theorem keyLe_total : ∀ a b : List Nat, keyLe a b || keyLe b a := by
  intro a
  induction a with
  | nil => intro b; cases b <;> simp [keyLe, keyCmp]
  | cons x as ih =>
    intro b
    cases b with
    | nil => simp [keyLe, keyCmp]
    | cons y bs =>
      simp only [keyLe, keyCmp]
      rcases Nat.lt_trichotomy x y with h | h | h
      · simp [h, Nat.not_lt.mpr (Nat.le_of_lt h)]
      · subst h
        simp only [Nat.lt_irrefl, if_false]
        exact ih bs
      · simp [h, Nat.not_lt.mpr (Nat.le_of_lt h)]

theorem keyLe_trans : ∀ a b c : List Nat,
    keyLe a b = true → keyLe b c = true → keyLe a c = true := by
  intro a
  induction a with
  | nil => intro b c _ _; cases c <;> simp [keyLe, keyCmp]
  | cons x as ih =>
    intro b c hab hbc
    cases b with
    | nil => simp [keyLe, keyCmp] at hab
    | cons y bs =>
      cases c with
      | nil => simp [keyLe, keyCmp] at hbc
      | cons z cs =>
        simp only [keyLe, keyCmp] at hab hbc ⊢
        rcases Nat.lt_trichotomy x y with h1 | h1 | h1
        · rcases Nat.lt_trichotomy y z with h2 | h2 | h2
          · simp [Nat.lt_trans h1 h2]
          · subst h2; simp [h1]
          · simp [h2, Nat.not_lt.mpr (Nat.le_of_lt h2)] at hbc
        · subst h1
          rcases Nat.lt_trichotomy x z with h2 | h2 | h2
          · simp [h2]
          · subst h2
            simp only [Nat.lt_irrefl, if_false] at hab hbc ⊢
            exact ih _ _ hab hbc
          · simp [h2, Nat.not_lt.mpr (Nat.le_of_lt h2)] at hbc
        · simp [h1, Nat.not_lt.mpr (Nat.le_of_lt h1)] at hab

theorem naturalSortLe_eq_keyLe (a b : String) :
    naturalSortLe a b = keyLe (naturalKey a) (naturalKey b) := rfl

/-- Extensions whose languages are whitespace-sensitive;
`WHITESPACE_DEPENDENT_EXTENSIONS` from `src/utils.ts`. -/
def WHITESPACE_DEPENDENT_EXTENSIONS : List String :=
  [".py", ".yaml", ".yml", ".jade", ".haml", ".slim", ".coffee", ".pug",
   ".styl", ".gd"]

/-- Lower-cased string, modelling `String.prototype.toLowerCase` on the
ASCII range the pipeline compares. -/
def toLowerStr (s : String) : String :=
  String.mk (s.data.map Char.toLower)

/-- Suffix test, modelling `String.prototype.endsWith`. -/
def endsWithStr (s suffix' : String) : Bool :=
  s.data.drop (s.data.length - suffix'.data.length) == suffix'.data

/-- Split a character list at slashes. -/
def splitSlash : List Char → List (List Char)
  | [] => [[]]
  | c :: rest =>
    let parts := splitSlash rest
    if c = '/' then
      [] :: parts
    else
      (c :: parts.headD []) :: parts.tail

/-- Last path component, modelling `path.basename` on slash-separated
paths without trailing separators (the form produced by `glob` and used by
the pipeline). -/
def basenameStr (p : String) : String :=
  (((splitSlash p.data).map String.mk).filter (fun s => s ≠ "")).getLastD p

/-- Index of the last dot in a character list. -/
def lastDotIdx : List Char → Option Nat
  | [] => none
  | c :: rest =>
    match lastDotIdx rest with
    | some i => some (i + 1)
    | none => if c = '.' then some 0 else none

/-- Extension of a path including the leading dot, modelling
`path.extname` on ordinary file names (a dot that starts the basename does
not begin an extension). -/
def extname (p : String) : String :=
  let b := basenameStr p
  match lastDotIdx b.data with
  | some i => if 0 < i then String.mk (b.data.drop i) else ""
  | none => ""

/-- Embedding of `getFileType` from `src/utils.ts`: a human-readable type
name chosen by lower-cased extension. -/
def getFileType (filePath : String) : String :=
  let extension := toLowerStr (extname filePath)
  if extension = ".jpg" ∨ extension = ".jpeg" ∨ extension = ".png" ∨
     extension = ".gif" ∨ extension = ".bmp" ∨ extension = ".webp" then
    "Image"
  else if extension = ".svg" then "SVG Image"
  else if extension = ".wasm" then "WebAssembly"
  else if extension = ".pdf" then "PDF"
  else if extension = ".doc" ∨ extension = ".docx" then "Word Document"
  else if extension = ".xls" ∨ extension = ".xlsx" then "Excel Spreadsheet"
  else if extension = ".ppt" ∨ extension = ".pptx" then
    "PowerPoint Presentation"
  else if extension = ".zip" ∨ extension = ".rar" ∨ extension = ".7z" then
    "Compressed Archive"
  else if extension = ".exe" then "Executable"
  else if extension = ".dll" then "Dynamic-link Library"
  else if extension = ".so" then "Shared Object"
  else if extension = ".dylib" then "Dynamic Library"
  else "Binary"

/-- Embedding of `shouldTreatAsBinary` from `src/utils.ts`. -/
def shouldTreatAsBinary (filePath : String) : Bool :=
  endsWithStr (toLowerStr filePath) ".svg" || getFileType filePath != "Binary"

/-- Embedding of `isTextFile` from `src/utils.ts`.  The byte-sniffing
result of the external `isbinaryfile` library is an oracle Boolean
(`sniffIsBinary`); a sniffing error makes `isTextFile` return `false`, so
it is folded into the oracle as `true`. -/
def isTextFile (sniffIsBinary : Bool) (filePath : String) : Bool :=
  !sniffIsBinary && !(endsWithStr (toLowerStr filePath) ".svg")

/-- One discovered file together with the filesystem facts the pipeline
consumes about it: the `glob`-relative path, its source directory, the
`fs.stat` size, the binary-sniffing oracle, and the outcome of
`fs.readFile` (`readOk` with `content`, or an error message). -/
structure SourceFile where
  relativePath : String
  sourceDir : String
  size : Nat
  sniffIsBinary : Bool
  readOk : Bool
  content : String
  errMsg : String

/-- Record passed to the minify description callback,
`MinifyMetadata` from `src/types.ts`. -/
structure MinifyMetadata where
  filePath : String
  displayPath : String
  extension : String
  fileType : String
  defaultText : String

/-- One output record of the pipeline, `ProcessedFile` from
`src/types.ts`. -/
structure ProcessedFile where
  fileName : String
  content : String
deriving DecidableEq

/-- The inputs of `processFiles`, with the gitignore-style matchers of the
external `ignore` library abstracted to Boolean-valued functions:
`defaultIgnoreMatch` is the matcher seeded with the default patterns,
`customIgnoreMatch dir rel` and `minifyMatch dir rel` are the per-directory
matchers built from the ignore and minify pattern files.  `outputAbsPath`
is the resolved absolute output path, or `none`. -/
structure Options where
  directories : List String
  outputAbsPath : Option String
  useDefaultIgnores : Bool
  removeWhitespaceFlag : Bool
  defaultIgnoreMatch : String → Bool
  customIgnoreMatch : String → String → Bool
  minifyMatch : String → String → Bool
  minifyFileDescription : Option (MinifyMetadata → String)

/-- Classification of one file by the body of the `processFiles` loop. -/
inductive EntryResult where
  | defaultIgnored
  | customIgnored
  | minified (metadata : MinifyMetadata)
  | textIncluded (fragment : String)
  | binaryIncluded (fragment : String)
  | skippedOversized
  | skippedReadError

/-- Display path of a file: prefixed by the source directory's basename
exactly when more than one input directory was supplied. -/
def displayPathOf (opts : Options) (f : SourceFile) : String :=
  if opts.directories.length > 1 then
    basenameStr f.sourceDir ++ "/" ++ f.relativePath
  else
    f.relativePath

/-- Model of `path.join(inputDir, file)` for the slash-separated paths in
use. -/
def joinPath (dir rel : String) : String :=
  dir ++ "/" ++ rel

/-- The null character removed from text content. -/
def nullChar : Char := '\x00'

/-- The whitespace-removal step applied to a text file's content:
`removeWhitespace` exactly when the flag is set and the extension is not
whitespace-dependent (lines 348-353 of `src/digest.ts`). -/
def whitespaceStep (flag : Bool) (extension : String) (content : String) :
    String :=
  if flag ∧ ¬ (WHITESPACE_DEPENDENT_EXTENSIONS.contains extension) then
    removeWhitespace content
  else
    content

/-- The body of the `processFiles` loop for one entry (lines 253-381 of
`src/digest.ts`): output-file and default-ignore check, then custom
ignore, then minify, then text/binary classification with the oversized
and read-error escapes inside the text branch.  For a minified file the
result carries the metadata record; the optional description callback is
applied by the accumulation step. -/
def processOne (opts : Options) (f : SourceFile) : EntryResult :=
  let fullPath := joinPath f.sourceDir f.relativePath
  if (match opts.outputAbsPath with
      | some o => fullPath == o
      | none => false) ||
     (opts.useDefaultIgnores && opts.defaultIgnoreMatch f.relativePath) then
    .defaultIgnored
  else if opts.customIgnoreMatch f.sourceDir f.relativePath then
    .customIgnored
  else
    let displayPath := displayPathOf opts f
    if opts.minifyMatch f.sourceDir f.relativePath then
      let fileType := getFileType fullPath
      let ext0 := (extname f.relativePath).drop 1
      let extension := if ext0 = "" then "unknown" else ext0
      let extDisp :=
        if extension ≠ "" then "." ++ toLowerStr extension else "unknown"
      let defaultText :=
        "# " ++ displayPath ++ "\n\nThis is a minified file of type: " ++
        extDisp ++
        ". The file exists but has been excluded from the codebase digest.\n\n"
      .minified
        { filePath := fullPath, displayPath := displayPath,
          extension := extension, fileType := fileType,
          defaultText := defaultText }
    else if isTextFile f.sniffIsBinary fullPath &&
            !(shouldTreatAsBinary fullPath) then
      if f.size > 500 * 1024 * 1024 then
        .skippedOversized
      else if ¬ f.readOk then
        .skippedReadError
      else
        let extension := extname f.relativePath
        let content0 :=
          if f.content.data.contains nullChar then
            String.mk (f.content.data.filter (fun c => c ≠ nullChar))
          else
            f.content
        let content1 := escapeTripleBackticks content0
        let content2 :=
          whitespaceStep opts.removeWhitespaceFlag extension content1
        .textIncluded
          ("# " ++ displayPath ++ "\n\n" ++ "```" ++ extension.drop 1 ++
           "\n" ++ content2 ++ "\n```\n\n")
    else
      let fileType := getFileType fullPath
      .binaryIncluded
        ("# " ++ displayPath ++ "\n\n" ++
         (if fileType = "SVG Image" then
            "This is a file of the type: " ++ fileType ++ "\n\n"
          else
            "This is a binary file of the type: " ++ fileType ++ "\n\n"))

/-- Application of the optional minify description callback: its return
value becomes the fragment, and without a callback the default text is
used (lines 297-308 of `src/digest.ts`). -/
def applyCallback : Option (MinifyMetadata → String) → MinifyMetadata →
    String
  | some cb, md => cb md
  | none, md => md.defaultText

/-- The mutable loop state of `processFiles`: the six counters, the list
of included display paths and the accumulated `ProcessedFile` records. -/
structure Accum where
  includedCount : Nat
  defaultIgnoredCount : Nat
  customIgnoredCount : Nat
  minifiedCount : Nat
  binaryAndSvgFileCount : Nat
  skippedFiles : Nat
  includedFiles : List String
  processedFiles : List ProcessedFile

/-- Loop state before the first iteration. -/
def initAccum : Accum :=
  { includedCount := 0, defaultIgnoredCount := 0, customIgnoredCount := 0,
    minifiedCount := 0, binaryAndSvgFileCount := 0, skippedFiles := 0,
    includedFiles := [], processedFiles := [] }

/-- Effect of one loop iteration on the loop state: counter increments,
`includedFiles.push` and `processedFiles.push` per classification.  The
two skip escapes (`continue` at lines 327 and 337 of `src/digest.ts`)
increment `skippedFiles` and push nothing. -/
def applyResult (opts : Options) (f : SourceFile) (acc : Accum) : Accum :=
  let displayPath := displayPathOf opts f
  match processOne opts f with
  | .defaultIgnored =>
      { acc with defaultIgnoredCount := acc.defaultIgnoredCount + 1 }
  | .customIgnored =>
      { acc with customIgnoredCount := acc.customIgnoredCount + 1 }
  | .minified md =>
      { acc with
        minifiedCount := acc.minifiedCount + 1,
        includedCount := acc.includedCount + 1,
        includedFiles := acc.includedFiles ++ [displayPath],
        processedFiles := acc.processedFiles ++
          [{ fileName := displayPath,
             content := applyCallback opts.minifyFileDescription md }] }
  | .textIncluded frag =>
      { acc with
        includedCount := acc.includedCount + 1,
        includedFiles := acc.includedFiles ++ [displayPath],
        processedFiles := acc.processedFiles ++
          [{ fileName := displayPath, content := frag }] }
  | .binaryIncluded frag =>
      { acc with
        binaryAndSvgFileCount := acc.binaryAndSvgFileCount + 1,
        includedCount := acc.includedCount + 1,
        includedFiles := acc.includedFiles ++ [displayPath],
        processedFiles := acc.processedFiles ++
          [{ fileName := displayPath, content := frag }] }
  | .skippedOversized =>
      { acc with skippedFiles := acc.skippedFiles + 1 }
  | .skippedReadError =>
      { acc with skippedFiles := acc.skippedFiles + 1 }

/-- Stable insertion of an element into a list: it lands before the first
element it compares less-or-equal to, so elements comparing equal keep
their original relative order. -/
def insertSorted (le : SourceFile → SourceFile → Bool) (x : SourceFile) :
    List SourceFile → List SourceFile
  | [] => [x]
  | y :: ys =>
    if le x y then x :: y :: ys else y :: insertSorted le x ys

/-- Stable sort by a total comparator (insertion sort).  A JavaScript
`Array.prototype.sort` with a consistent comparator is specified to
produce exactly the stable sorted permutation, which is unique, so this
models the `allFileEntries.sort(...)` call. -/
def stableSort (le : SourceFile → SourceFile → Bool) :
    List SourceFile → List SourceFile
  | [] => []
  | x :: xs => insertSorted le x (stableSort le xs)

/-- The comparator of the sort at line 251 of `src/digest.ts`:
`naturalSort(a.relativePath, b.relativePath) <= 0`. -/
def entryLe (a b : SourceFile) : Bool :=
  naturalSortLe a.relativePath b.relativePath

/-- The `allFileEntries.sort((a, b) => naturalSort(a.relativePath,
b.relativePath))` step: a stable sort by the natural comparator. -/
def sortEntries (entries : List SourceFile) : List SourceFile :=
  stableSort entryLe entries

/-- The whole loop of `processFiles` as a fold. -/
def runFold (opts : Options) (l : List SourceFile) (acc : Accum) : Accum :=
  l.foldl (fun a f => applyResult opts f a) acc

/-- Aggregate statistics returned by `processFiles`. -/
structure Stats where
  totalFiles : Nat
  includedCount : Nat
  defaultIgnoredCount : Nat
  customIgnoredCount : Nat
  minifiedCount : Nat
  binaryAndSvgFileCount : Nat
  skippedFiles : Nat
  includedFiles : List String
  fileSizeInBytes : Nat
deriving DecidableEq

/-- Return value of `processFiles`. -/
structure ProcessResult where
  files : List ProcessedFile
  stats : Stats
deriving DecidableEq

/-- Embedding of `processFiles` (lines 96-408 of `src/digest.ts`): sort
the discovered entries naturally, run the classification loop, and report
the counters together with `fileSizeInBytes`, the sum of the UTF-8 byte
lengths of the accumulated fragments (the `reduce` at line 383). -/
def processFiles (opts : Options) (entries : List SourceFile) :
    ProcessResult :=
  let acc := runFold opts (sortEntries entries) initAccum
  { files := acc.processedFiles
    stats :=
      { totalFiles := entries.length
        includedCount := acc.includedCount
        defaultIgnoredCount := acc.defaultIgnoredCount
        customIgnoredCount := acc.customIgnoredCount
        minifiedCount := acc.minifiedCount
        binaryAndSvgFileCount := acc.binaryAndSvgFileCount
        skippedFiles := acc.skippedFiles
        includedFiles := acc.includedFiles
        fileSizeInBytes :=
          (acc.processedFiles.map (fun pf => byteLength pf.content)).sum } }

/-- Return value of `generateDigestContent` (token estimation, an external
tokenizer call, is out of the embedded scope). -/
structure DigestResult where
  content : String
  files : List ProcessedFile
  stats : Stats
deriving DecidableEq

/-- Embedding of `generateDigestContent` (lines 411-472 of
`src/digest.ts`): join all fragments and override `fileSizeInBytes` with
the byte length of the joined output. -/
def generateDigestContent (opts : Options) (entries : List SourceFile) :
    DigestResult :=
  let r := processFiles opts entries
  let output := String.join (r.files.map (fun f => f.content))
  { content := output
    files := r.files
    stats := { r.stats with fileSizeInBytes := byteLength output } }

/-- A flat filesystem: a map from absolute path to file content. -/
def FsState := String → Option String

/-- Content stored at a path, if any. -/
def lookupFile (fs : FsState) (p : String) : Option String :=
  fs p

/-- Overwrite (or create) the file at a path. -/
def setFile (fs : FsState) (p : String) (c : String) : FsState :=
  fun q => if q = p then some c else fs q

/-- Delete the file at a path, modelling `fs.unlink`. -/
def removeFile (fs : FsState) (p : String) : FsState :=
  fun q => if q = p then none else fs q

/-- Atomic rename, modelling `fs.rename`. -/
def renameFile (fs : FsState) (src dst : String) : FsState :=
  match lookupFile fs src with
  | some c => setFile (removeFile fs src) dst c
  | none => fs

/-- Final filesystem and error outcome of one `writeDigestToFile` call. -/
structure WriteOutcome where
  fs : FsState
  result : Except String Unit

/-- Embedding of the write path of `writeDigestToFile` (lines 492-514 of
`src/digest.ts`): write the content to the sibling `.temp` file, compare
the size `fs.stat` observes against `Buffer.byteLength(content)`, and
either atomically rename the temp file over the target or unlink the temp
file and raise.  `observedTempSize` is the size `fs.stat` reports for the
just-written temp file. -/
def writeDigestToFile (fs0 : FsState) (content : String)
    (outputPath : String) (observedTempSize : Nat) : WriteOutcome :=
  let tempFile := outputPath ++ ".temp"
  let fs1 := setFile fs0 tempFile content
  if observedTempSize = byteLength content then
    { fs := renameFile fs1 tempFile outputPath, result := .ok () }
  else
    { fs := removeFile fs1 tempFile,
      result := .error "File size mismatch after writing" }

/-- Classification predicates on loop results. -/
def isIncludedResult : EntryResult → Bool
  | .minified _ => true
  | .textIncluded _ => true
  | .binaryIncluded _ => true
  | _ => false

/-- True exactly for the two skip escapes. -/
def isSkippedResult : EntryResult → Bool
  | .skippedOversized => true
  | .skippedReadError => true
  | _ => false

/-- True exactly for a default-ignored file. -/
def isDefaultIgnoredResult : EntryResult → Bool
  | .defaultIgnored => true
  | _ => false

/-- True exactly for a custom-ignored file. -/
def isCustomIgnoredResult : EntryResult → Bool
  | .customIgnored => true
  | _ => false

/-- True exactly for a minified file. -/
def isMinifiedResult : EntryResult → Bool
  | .minified _ => true
  | _ => false

/-- True exactly for a text file included with full content. -/
def isTextResult : EntryResult → Bool
  | .textIncluded _ => true
  | _ => false

/-- True exactly for a binary-or-SVG inclusion. -/
def isBinaryResult : EntryResult → Bool
  | .binaryIncluded _ => true
  | _ => false

/-- The `ProcessedFile` a single entry contributes, if any. -/
def fragmentOf (opts : Options) (f : SourceFile) : Option ProcessedFile :=
  match processOne opts f with
  | .minified md =>
      some { fileName := displayPathOf opts f,
             content := applyCallback opts.minifyFileDescription md }
  | .textIncluded frag =>
      some { fileName := displayPathOf opts f, content := frag }
  | .binaryIncluded frag =>
      some { fileName := displayPathOf opts f, content := frag }
  | _ => none

/-- The display path an entry adds to `includedFiles`, if any. -/
def includedNameOf (opts : Options) (f : SourceFile) : Option String :=
  if isIncludedResult (processOne opts f) then
    some (displayPathOf opts f)
  else
    none

/-- The metadata records the minify description callback is applied to,
in processing order: one per minified file. -/
def minifyCallLog (opts : Options) (entries : List SourceFile) :
    List MinifyMetadata :=
  (sortEntries entries).filterMap (fun f =>
    match processOne opts f with
    | .minified md => some md
    | _ => none)

/-- The source-relative paths of the entries that contribute a fragment,
in emission order. -/
def emittedRelPaths (opts : Options) (entries : List SourceFile) :
    List String :=
  (sortEntries entries).filterMap (fun f =>
    if isIncludedResult (processOne opts f) then
      some f.relativePath
    else
      none)

theorem byteLength_append (a b : String) :
    byteLength (a ++ b) = byteLength a + byteLength b := by
  simp [byteLength, String.data_append]

theorem byteLength_foldl (l : List String) :
    ∀ a : String, byteLength (l.foldl (fun r s => r ++ s) a) =
      byteLength a + (l.map byteLength).sum := by
  induction l with
  | nil => intro a; simp
  | cons s l ih =>
    intro a
    simp only [List.foldl_cons, List.map_cons, List.sum_cons]
    rw [ih, byteLength_append]
    omega

/-- Byte length of a concatenation is the sum of the fragments' byte
lengths. -/
theorem byteLength_join (l : List String) :
    byteLength (String.join l) = (l.map byteLength).sum := by
  have h := byteLength_foldl l ""
  have h0 : byteLength "" = 0 := rfl
  rw [String.join, h, h0, Nat.zero_add]

theorem applyResult_includedCount (opts : Options) (f : SourceFile)
    (acc : Accum) :
    (applyResult opts f acc).includedCount =
      acc.includedCount +
        (if isIncludedResult (processOne opts f) then 1 else 0) := by
  rcases h : processOne opts f <;> simp [applyResult, h, isIncludedResult]

theorem applyResult_defaultIgnoredCount (opts : Options) (f : SourceFile)
    (acc : Accum) :
    (applyResult opts f acc).defaultIgnoredCount =
      acc.defaultIgnoredCount +
        (if isDefaultIgnoredResult (processOne opts f) then 1 else 0) := by
  rcases h : processOne opts f <;>
    simp [applyResult, h, isDefaultIgnoredResult]

theorem applyResult_customIgnoredCount (opts : Options) (f : SourceFile)
    (acc : Accum) :
    (applyResult opts f acc).customIgnoredCount =
      acc.customIgnoredCount +
        (if isCustomIgnoredResult (processOne opts f) then 1 else 0) := by
  rcases h : processOne opts f <;>
    simp [applyResult, h, isCustomIgnoredResult]

theorem applyResult_minifiedCount (opts : Options) (f : SourceFile)
    (acc : Accum) :
    (applyResult opts f acc).minifiedCount =
      acc.minifiedCount +
        (if isMinifiedResult (processOne opts f) then 1 else 0) := by
  rcases h : processOne opts f <;> simp [applyResult, h, isMinifiedResult]

theorem applyResult_binaryCount (opts : Options) (f : SourceFile)
    (acc : Accum) :
    (applyResult opts f acc).binaryAndSvgFileCount =
      acc.binaryAndSvgFileCount +
        (if isBinaryResult (processOne opts f) then 1 else 0) := by
  rcases h : processOne opts f <;> simp [applyResult, h, isBinaryResult]

theorem applyResult_skippedFiles (opts : Options) (f : SourceFile)
    (acc : Accum) :
    (applyResult opts f acc).skippedFiles =
      acc.skippedFiles +
        (if isSkippedResult (processOne opts f) then 1 else 0) := by
  rcases h : processOne opts f <;> simp [applyResult, h, isSkippedResult]

theorem applyResult_processedFiles (opts : Options) (f : SourceFile)
    (acc : Accum) :
    (applyResult opts f acc).processedFiles =
      acc.processedFiles ++ (fragmentOf opts f).toList := by
  rcases h : processOne opts f <;> simp [applyResult, h, fragmentOf]

theorem applyResult_includedFiles (opts : Options) (f : SourceFile)
    (acc : Accum) :
    (applyResult opts f acc).includedFiles =
      acc.includedFiles ++ (includedNameOf opts f).toList := by
  rcases h : processOne opts f <;>
    simp [applyResult, h, includedNameOf, isIncludedResult]

theorem runFold_includedCount (opts : Options) :
    ∀ (l : List SourceFile) (acc : Accum),
    (runFold opts l acc).includedCount =
      acc.includedCount +
        l.countP (fun f => isIncludedResult (processOne opts f)) := by
  intro l
  induction l with
  | nil => intro acc; simp [runFold]
  | cons f l ih =>
    intro acc
    simp only [runFold, List.foldl_cons] at ih ⊢
    rw [ih, applyResult_includedCount, List.countP_cons]
    split <;> omega

theorem runFold_defaultIgnoredCount (opts : Options) :
    ∀ (l : List SourceFile) (acc : Accum),
    (runFold opts l acc).defaultIgnoredCount =
      acc.defaultIgnoredCount +
        l.countP (fun f => isDefaultIgnoredResult (processOne opts f)) := by
  intro l
  induction l with
  | nil => intro acc; simp [runFold]
  | cons f l ih =>
    intro acc
    simp only [runFold, List.foldl_cons] at ih ⊢
    rw [ih, applyResult_defaultIgnoredCount, List.countP_cons]
    split <;> omega

theorem runFold_customIgnoredCount (opts : Options) :
    ∀ (l : List SourceFile) (acc : Accum),
    (runFold opts l acc).customIgnoredCount =
      acc.customIgnoredCount +
        l.countP (fun f => isCustomIgnoredResult (processOne opts f)) := by
  intro l
  induction l with
  | nil => intro acc; simp [runFold]
  | cons f l ih =>
    intro acc
    simp only [runFold, List.foldl_cons] at ih ⊢
    rw [ih, applyResult_customIgnoredCount, List.countP_cons]
    split <;> omega

theorem runFold_minifiedCount (opts : Options) :
    ∀ (l : List SourceFile) (acc : Accum),
    (runFold opts l acc).minifiedCount =
      acc.minifiedCount +
        l.countP (fun f => isMinifiedResult (processOne opts f)) := by
  intro l
  induction l with
  | nil => intro acc; simp [runFold]
  | cons f l ih =>
    intro acc
    simp only [runFold, List.foldl_cons] at ih ⊢
    rw [ih, applyResult_minifiedCount, List.countP_cons]
    split <;> omega

theorem runFold_binaryCount (opts : Options) :
    ∀ (l : List SourceFile) (acc : Accum),
    (runFold opts l acc).binaryAndSvgFileCount =
      acc.binaryAndSvgFileCount +
        l.countP (fun f => isBinaryResult (processOne opts f)) := by
  intro l
  induction l with
  | nil => intro acc; simp [runFold]
  | cons f l ih =>
    intro acc
    simp only [runFold, List.foldl_cons] at ih ⊢
    rw [ih, applyResult_binaryCount, List.countP_cons]
    split <;> omega

theorem runFold_skippedFiles (opts : Options) :
    ∀ (l : List SourceFile) (acc : Accum),
    (runFold opts l acc).skippedFiles =
      acc.skippedFiles +
        l.countP (fun f => isSkippedResult (processOne opts f)) := by
  intro l
  induction l with
  | nil => intro acc; simp [runFold]
  | cons f l ih =>
    intro acc
    simp only [runFold, List.foldl_cons] at ih ⊢
    rw [ih, applyResult_skippedFiles, List.countP_cons]
    split <;> omega

theorem runFold_processedFiles (opts : Options) :
    ∀ (l : List SourceFile) (acc : Accum),
    (runFold opts l acc).processedFiles =
      acc.processedFiles ++ l.filterMap (fragmentOf opts) := by
  intro l
  induction l with
  | nil => intro acc; simp [runFold]
  | cons f l ih =>
    intro acc
    simp only [runFold, List.foldl_cons] at ih ⊢
    rw [ih, applyResult_processedFiles, List.filterMap_cons]
    rcases fragmentOf opts f <;> simp

theorem runFold_includedFiles (opts : Options) :
    ∀ (l : List SourceFile) (acc : Accum),
    (runFold opts l acc).includedFiles =
      acc.includedFiles ++ l.filterMap (includedNameOf opts) := by
  intro l
  induction l with
  | nil => intro acc; simp [runFold]
  | cons f l ih =>
    intro acc
    simp only [runFold, List.foldl_cons] at ih ⊢
    rw [ih, applyResult_includedFiles, List.filterMap_cons]
    rcases includedNameOf opts f <;> simp

theorem entryLe_total (a b : SourceFile) : entryLe a b || entryLe b a :=
  keyLe_total _ _

theorem entryLe_trans {a b c : SourceFile} (h1 : entryLe a b = true)
    (h2 : entryLe b c = true) : entryLe a c = true :=
  keyLe_trans _ _ _ h1 h2

theorem insertSorted_perm (le : SourceFile → SourceFile → Bool)
    (x : SourceFile) :
    ∀ l : List SourceFile, (insertSorted le x l).Perm (x :: l) := by
  intro l
  induction l with
  | nil => simp [insertSorted]
  | cons y ys ih =>
    simp only [insertSorted]
    split
    · exact List.Perm.refl _
    · exact (ih.cons y).trans (List.Perm.swap x y ys)

theorem stableSort_perm (le : SourceFile → SourceFile → Bool) :
    ∀ l : List SourceFile, (stableSort le l).Perm l := by
  intro l
  induction l with
  | nil => simp [stableSort]
  | cons x xs ih =>
    exact (insertSorted_perm le x (stableSort le xs)).trans (ih.cons x)

theorem insertSorted_pairwise (x : SourceFile) :
    ∀ l : List SourceFile,
    List.Pairwise (fun a b => entryLe a b = true) l →
    List.Pairwise (fun a b => entryLe a b = true) (insertSorted entryLe x l) := by
  intro l
  induction l with
  | nil => intro _; simp [insertSorted]
  | cons y ys ih =>
    intro h
    rcases List.pairwise_cons.mp h with ⟨hy, hys⟩
    simp only [insertSorted]
    by_cases hxy : entryLe x y = true
    · simp only [hxy, if_true]
      refine List.pairwise_cons.mpr ⟨?_, h⟩
      intro z hz
      rcases List.mem_cons.mp hz with rfl | hz
      · exact hxy
      · exact entryLe_trans hxy (hy z hz)
    · simp only [hxy, if_false]
      refine List.pairwise_cons.mpr ⟨?_, ih hys⟩
      intro z hz
      have hyx : entryLe y x = true := by
        have := entryLe_total x y
        simp [hxy] at this
        exact this
      rcases ((insertSorted_perm entryLe x ys).mem_iff).mp hz with h2
      rcases List.mem_cons.mp h2 with rfl | h2
      · exact hyx
      · exact hy z h2

theorem stableSort_pairwise :
    ∀ l : List SourceFile,
    List.Pairwise (fun a b => entryLe a b = true) (stableSort entryLe l) := by
  intro l
  induction l with
  | nil => simp [stableSort]
  | cons x xs ih => exact insertSorted_pairwise x _ ih

/-- The sorted entry list is pairwise ordered by the natural comparator on
relative paths. -/
theorem sortEntries_pairwise (entries : List SourceFile) :
    List.Pairwise
      (fun a b => naturalSortLe a.relativePath b.relativePath = true)
      (sortEntries entries) :=
  stableSort_pairwise entries

theorem sortEntries_perm (entries : List SourceFile) :
    (sortEntries entries).Perm entries :=
  stableSort_perm entryLe entries

theorem filterMap_if_eq_map_filter {α β : Type} (p : α → Bool) (g : α → β) :
    ∀ l : List α,
    l.filterMap (fun a => if p a then some (g a) else none) =
      (l.filter p).map g := by
  intro l
  induction l with
  | nil => simp
  | cons a l ih =>
    by_cases h : p a <;> simp [List.filterMap_cons, h, ih]

theorem length_filterMap_eq_countP {α β : Type} (g : α → Option β) :
    ∀ l : List α,
    (l.filterMap g).length = l.countP (fun a => (g a).isSome) := by
  intro l
  induction l with
  | nil => simp
  | cons a l ih =>
    rcases h : g a <;> simp [List.filterMap_cons, h, List.countP_cons, ih]

/-- The `files` array returned by `processFiles` is exactly the fragments
of the sorted entries, in order. -/
theorem processFiles_files (opts : Options) (entries : List SourceFile) :
    (processFiles opts entries).files =
      (sortEntries entries).filterMap (fragmentOf opts) := by
  simp [processFiles, runFold_processedFiles, initAccum]

theorem processFiles_includedFiles (opts : Options)
    (entries : List SourceFile) :
    (processFiles opts entries).stats.includedFiles =
      (sortEntries entries).filterMap (includedNameOf opts) := by
  simp [processFiles, runFold_includedFiles, initAccum]

theorem processFiles_includedCount (opts : Options)
    (entries : List SourceFile) :
    (processFiles opts entries).stats.includedCount =
      entries.countP (fun f => isIncludedResult (processOne opts f)) := by
  have h := runFold_includedCount opts (sortEntries entries) initAccum
  have hp := (sortEntries_perm entries).countP_eq
    (fun f => isIncludedResult (processOne opts f))
  simp [processFiles, initAccum] at h ⊢
  rw [h, hp]

theorem processFiles_defaultIgnoredCount (opts : Options)
    (entries : List SourceFile) :
    (processFiles opts entries).stats.defaultIgnoredCount =
      entries.countP (fun f => isDefaultIgnoredResult (processOne opts f)) := by
  have h := runFold_defaultIgnoredCount opts (sortEntries entries) initAccum
  have hp := (sortEntries_perm entries).countP_eq
    (fun f => isDefaultIgnoredResult (processOne opts f))
  simp [processFiles, initAccum] at h ⊢
  rw [h, hp]

theorem processFiles_customIgnoredCount (opts : Options)
    (entries : List SourceFile) :
    (processFiles opts entries).stats.customIgnoredCount =
      entries.countP (fun f => isCustomIgnoredResult (processOne opts f)) := by
  have h := runFold_customIgnoredCount opts (sortEntries entries) initAccum
  have hp := (sortEntries_perm entries).countP_eq
    (fun f => isCustomIgnoredResult (processOne opts f))
  simp [processFiles, initAccum] at h ⊢
  rw [h, hp]

theorem processFiles_minifiedCount (opts : Options)
    (entries : List SourceFile) :
    (processFiles opts entries).stats.minifiedCount =
      entries.countP (fun f => isMinifiedResult (processOne opts f)) := by
  have h := runFold_minifiedCount opts (sortEntries entries) initAccum
  have hp := (sortEntries_perm entries).countP_eq
    (fun f => isMinifiedResult (processOne opts f))
  simp [processFiles, initAccum] at h ⊢
  rw [h, hp]

theorem processFiles_binaryCount (opts : Options)
    (entries : List SourceFile) :
    (processFiles opts entries).stats.binaryAndSvgFileCount =
      entries.countP (fun f => isBinaryResult (processOne opts f)) := by
  have h := runFold_binaryCount opts (sortEntries entries) initAccum
  have hp := (sortEntries_perm entries).countP_eq
    (fun f => isBinaryResult (processOne opts f))
  simp [processFiles, initAccum] at h ⊢
  rw [h, hp]

theorem processFiles_skippedFiles (opts : Options)
    (entries : List SourceFile) :
    (processFiles opts entries).stats.skippedFiles =
      entries.countP (fun f => isSkippedResult (processOne opts f)) := by
  have h := runFold_skippedFiles opts (sortEntries entries) initAccum
  have hp := (sortEntries_perm entries).countP_eq
    (fun f => isSkippedResult (processOne opts f))
  simp [processFiles, initAccum] at h ⊢
  rw [h, hp]

theorem processFiles_totalFiles (opts : Options)
    (entries : List SourceFile) :
    (processFiles opts entries).stats.totalFiles = entries.length := rfl

theorem result_partition (r : EntryResult) :
    (if isDefaultIgnoredResult r then 1 else 0) +
    (if isCustomIgnoredResult r then 1 else 0) +
    (if isIncludedResult r then 1 else 0) +
    (if isSkippedResult r then 1 else 0) = 1 := by
  rcases r <;> rfl

theorem result_included_partition (r : EntryResult) :
    (if isIncludedResult r then 1 else 0) =
    (if isMinifiedResult r then 1 else 0) +
    (if isTextResult r then 1 else 0) +
    (if isBinaryResult r then 1 else 0) := by
  rcases r <;> rfl

/-- Each entry falls in exactly one of the four top-level buckets:
default-ignored, custom-ignored, included, skipped. -/
theorem classification_partition (opts : Options) :
    ∀ l : List SourceFile,
    l.countP (fun f => isDefaultIgnoredResult (processOne opts f)) +
    l.countP (fun f => isCustomIgnoredResult (processOne opts f)) +
    l.countP (fun f => isIncludedResult (processOne opts f)) +
    l.countP (fun f => isSkippedResult (processOne opts f)) = l.length := by
  intro l
  induction l with
  | nil => simp
  | cons f l ih =>
    simp only [List.countP_cons, List.length_cons]
    have h := result_partition (processOne opts f)
    omega

/-- An included entry is exactly one of minified, text, binary. -/
theorem included_partition (opts : Options) :
    ∀ l : List SourceFile,
    l.countP (fun f => isIncludedResult (processOne opts f)) =
      l.countP (fun f => isMinifiedResult (processOne opts f)) +
      l.countP (fun f => isTextResult (processOne opts f)) +
      l.countP (fun f => isBinaryResult (processOne opts f)) := by
  intro l
  induction l with
  | nil => simp
  | cons f l ih =>
    simp only [List.countP_cons]
    have h := result_included_partition (processOne opts f)
    omega

theorem processFiles_fileSizeInBytes (opts : Options)
    (entries : List SourceFile) :
    (processFiles opts entries).stats.fileSizeInBytes =
      ((processFiles opts entries).files.map
        (fun pf => byteLength pf.content)).sum := rfl

theorem generateDigestContent_content (opts : Options)
    (entries : List SourceFile) :
    (generateDigestContent opts entries).content =
      String.join
        ((processFiles opts entries).files.map (fun f => f.content)) := rfl

theorem generateDigestContent_fileSize (opts : Options)
    (entries : List SourceFile) :
    (generateDigestContent opts entries).stats.fileSizeInBytes =
      byteLength (generateDigestContent opts entries).content := rfl

theorem processOne_cb_irrel (opts : Options)
    (cb : Option (MinifyMetadata → String)) (f : SourceFile) :
    processOne { opts with minifyFileDescription := cb } f =
      processOne opts f := rfl

theorem displayPathOf_cb_irrel (opts : Options)
    (cb : Option (MinifyMetadata → String)) (f : SourceFile) :
    displayPathOf { opts with minifyFileDescription := cb } f =
      displayPathOf opts f := rfl

theorem applyResult_cb_defaultText (opts : Options) (f : SourceFile)
    (acc : Accum) :
    applyResult
        { opts with
          minifyFileDescription := some (fun md => md.defaultText) } f acc =
      applyResult { opts with minifyFileDescription := none } f acc := by
  simp only [applyResult, processOne_cb_irrel, displayPathOf_cb_irrel]
  rcases h : processOne opts f <;> simp [h, applyCallback]

theorem runFold_cb_defaultText (opts : Options) :
    ∀ (l : List SourceFile) (acc : Accum),
    runFold
        { opts with
          minifyFileDescription := some (fun md => md.defaultText) } l acc =
      runFold { opts with minifyFileDescription := none } l acc := by
  intro l
  induction l with
  | nil => intro acc; rfl
  | cons f l ih =>
    intro acc
    simp only [runFold, List.foldl_cons] at ih ⊢
    rw [applyResult_cb_defaultText]
    exact ih _

theorem lookupFile_setFile_self (fs : FsState) (p : String) (c : String) :
    lookupFile (setFile fs p c) p = some c := by
  simp [lookupFile, setFile]

theorem lookupFile_setFile_other (fs : FsState) {p q : String} (c : String)
    (h : q ≠ p) :
    lookupFile (setFile fs p c) q = lookupFile fs q := by
  simp [lookupFile, setFile, h]

theorem lookupFile_removeFile_self (fs : FsState) (p : String) :
    lookupFile (removeFile fs p) p = none := by
  simp [lookupFile, removeFile]

theorem lookupFile_removeFile_other (fs : FsState) {p q : String}
    (h : q ≠ p) :
    lookupFile (removeFile fs p) q = lookupFile fs q := by
  simp [lookupFile, removeFile, h]

theorem append_temp_ne (s : String) : s ++ ".temp" ≠ s := by
  intro h
  have hlen := congrArg (fun t : String => t.data.length) h
  simp [String.data_append] at hlen

/-- Three consecutive backticks occur at position `i`. -/
def tripleAt (l : List Char) (i : Nat) : Prop :=
  (l.drop i).take 3 = [backtick, backtick, backtick]

instance tripleAtDecidable (l : List Char) (i : Nat) :
    Decidable (tripleAt l i) :=
  inferInstanceAs
    (Decidable ((l.drop i).take 3 = [backtick, backtick, backtick]))

theorem backslash_ne_backtick : backslash ≠ backtick := by decide

theorem escapeTB_head : ∀ u : List Char,
    (escapeTB u).head? = some backtick → u.head? = some backtick
  | [], h => h
  | [c], h => h
  | [c1, c2], h => h
  | c1 :: c2 :: c3 :: rest, h => by
    by_cases hg : c1 = backtick ∧ c2 = backtick ∧ c3 = backtick
    · simp [hg.1]
    · simp only [escapeTB, if_neg hg] at h
      simpa using h

theorem escapeTB_second : ∀ u : List Char,
    ((escapeTB u).drop 1).head? = some backtick →
    (u.drop 1).head? = some backtick
  | [], h => h
  | [c], h => h
  | [c1, c2], h => h
  | c1 :: c2 :: c3 :: rest, h => by
    by_cases hg : c1 = backtick ∧ c2 = backtick ∧ c3 = backtick
    · simp [hg.2.1]
    · simp only [escapeTB, if_neg hg] at h
      have h2 := escapeTB_head (c2 :: c3 :: rest) h
      simpa using h2

theorem take2_head {l : List Char} {a b : Char} (h : l.take 2 = [a, b]) :
    l.head? = some a ∧ (l.drop 1).head? = some b := by
  rcases l with _ | ⟨x, _ | ⟨y, t⟩⟩ <;> simp at h
  simp [h.1, h.2]

/-- In the escaped output every occurrence of three consecutive backticks
is immediately preceded by a backslash (so it is never at a position the
Markdown fence scanner could take for a fence delimiter at line start). -/
theorem escapeTB_safe : ∀ (l : List Char) (i : Nat),
    tripleAt (escapeTB l) i →
    0 < i ∧ ((escapeTB l).drop (i - 1)).head? = some backslash
  | [], i, h => by
    have := congrArg List.length h
    simp [List.length_take, List.length_drop, escapeTB] at this
  | [c], i, h => by
    have := congrArg List.length h
    simp [List.length_take, List.length_drop, escapeTB] at this
    omega
  | [c1, c2], i, h => by
    have := congrArg List.length h
    simp [List.length_take, List.length_drop, escapeTB] at this
    omega
  | c1 :: c2 :: c3 :: rest, i, h => by
    have hne := backslash_ne_backtick
    by_cases hg : c1 = backtick ∧ c2 = backtick ∧ c3 = backtick
    · simp only [tripleAt, escapeTB, if_pos hg] at h ⊢
      rcases i with _ | _ | _ | _ | _ | _ | k
      · simp [hne] at h
      · simp [hne] at h
      · simp [hne] at h
      · simp [hne] at h
      · simp [hne] at h
      · exact ⟨by omega, rfl⟩
      · have h' : tripleAt (escapeTB rest) k := h
        have ih := escapeTB_safe rest k h'
        refine ⟨by omega, ?_⟩
        have harith : k + 6 - 1 = (k - 1) + 6 := by omega
        rw [harith]
        exact ih.2
    · simp only [tripleAt, escapeTB, if_neg hg] at h ⊢
      rcases i with _ | j
      · exfalso
        simp only [List.drop_zero] at h
        have hc1 : c1 = backtick := by
          have := congrArg List.head? h
          simpa using this
        have htail : (escapeTB (c2 :: c3 :: rest)).take 2 =
            [backtick, backtick] := by
          have := congrArg List.tail h
          simpa [List.take] using this
        have hh := take2_head htail
        have hc2 : c2 = backtick := by
          have := escapeTB_head (c2 :: c3 :: rest) hh.1
          simpa using this
        have hc3 : c3 = backtick := by
          have := escapeTB_second (c2 :: c3 :: rest) hh.2
          simpa using this
        exact hg ⟨hc1, hc2, hc3⟩
      · have h' : tripleAt (escapeTB (c2 :: c3 :: rest)) j := h
        have ih := escapeTB_safe (c2 :: c3 :: rest) j h'
        refine ⟨by omega, ?_⟩
        have harith : j + 1 - 1 = j := by omega
        rw [harith]
        have hj : j = (j - 1) + 1 := by omega
        rw [hj]
        exact ih.2
termination_by l _ _ => l.length
decreasing_by
  all_goals simp [List.length_cons]
  omega

/-- Options with one input directory and no matcher hits: every pattern
function returns false and no output path or callback is set. -/
def plainOpts : Options :=
  { directories := ["d"], outputAbsPath := none, useDefaultIgnores := true,
    removeWhitespaceFlag := false,
    defaultIgnoreMatch := fun _ => false,
    customIgnoreMatch := fun _ _ => false,
    minifyMatch := fun _ _ => false,
    minifyFileDescription := none }

/-- A 600MB text file, above the 500MB limit. -/
def oversizedFile : SourceFile :=
  { relativePath := "big.txt", sourceDir := "d", size := 600 * 1024 * 1024,
    sniffIsBinary := false, readOk := true, content := "x", errMsg := "" }

/-- A small text file whose read fails. -/
def unreadableFile : SourceFile :=
  { relativePath := "err.txt", sourceDir := "d", size := 10,
    sniffIsBinary := false, readOk := false, content := "",
    errMsg := "EACCES: permission denied" }

/-- A small readable text file at the given relative path. -/
def textFileNamed (p : String) : SourceFile :=
  { relativePath := p, sourceDir := "d", size := 2,
    sniffIsBinary := false, readOk := true, content := "hi", errMsg := "" }

/-- Options with whitespace removal requested. -/
def wsOpts : Options :=
  { plainOpts with removeWhitespaceFlag := true }

/-- A Python file with irregular internal spacing. -/
def pyFile : SourceFile :=
  { relativePath := "a.py", sourceDir := "d", size := 23,
    sniffIsBinary := false, readOk := true,
    content := "def f():\n    return   1", errMsg := "" }

/-- A JavaScript file with the same irregular content. -/
def jsFile : SourceFile :=
  { pyFile with relativePath := "a.js" }

/-- Options whose custom-ignore matcher and minify matcher both match
everything. -/
def bothMatchOpts : Options :=
  { plainOpts with
    customIgnoreMatch := fun _ _ => true,
    minifyMatch := fun _ _ => true }

/-- An initial filesystem holding an old version of the output file. -/
def fs0ex : FsState :=
  fun p => if p = "out.md" then some "old" else none

/-- C1, as stated, is false: an oversized (or unreadable) file is counted
only in `skippedFiles`, so `totalFiles` exceeds
`includedCount + defaultIgnoredCount + customIgnoredCount` on such runs.
Concretely, one 600MB text file gives totalFiles 1 and all three counters
0. -/
theorem claim1_counterexample :
    (processFiles plainOpts [oversizedFile]).stats.totalFiles ≠
      (processFiles plainOpts [oversizedFile]).stats.includedCount +
      (processFiles plainOpts [oversizedFile]).stats.defaultIgnoredCount +
      (processFiles plainOpts [oversizedFile]).stats.customIgnoredCount := by
  decide

/-- C1 (amended): for every run of `processFiles`,
`totalFiles = includedCount + defaultIgnoredCount + customIgnoredCount +
skippedFiles` (minified and binary files counting within
`includedCount`); the claimed three-term equation holds exactly on runs
with no skipped files. -/
theorem claim1_amended (opts : Options) (entries : List SourceFile) :
    (processFiles opts entries).stats.totalFiles =
      (processFiles opts entries).stats.includedCount +
      (processFiles opts entries).stats.defaultIgnoredCount +
      (processFiles opts entries).stats.customIgnoredCount +
      (processFiles opts entries).stats.skippedFiles := by
  rw [processFiles_totalFiles, processFiles_includedCount,
    processFiles_defaultIgnoredCount, processFiles_customIgnoredCount,
    processFiles_skippedFiles]
  have h := classification_partition opts entries
  omega

/-- C2: for every run, `stats.fileSizeInBytes` as computed by
`processFiles` (the sum of per-fragment UTF-8 byte lengths) equals the
UTF-8 byte length of the concatenation of all `ProcessedFile.content`
fragments in order, and `generateDigestContent` returns exactly that
joined string with exactly that byte count. -/
theorem claim2_size_invariant (opts : Options) (entries : List SourceFile) :
    (processFiles opts entries).stats.fileSizeInBytes =
      byteLength (String.join
        ((processFiles opts entries).files.map (fun f => f.content))) ∧
    (generateDigestContent opts entries).stats.fileSizeInBytes =
      (processFiles opts entries).stats.fileSizeInBytes ∧
    (generateDigestContent opts entries).content =
      String.join
        ((processFiles opts entries).files.map (fun f => f.content)) := by
  have hmain : (processFiles opts entries).stats.fileSizeInBytes =
      byteLength (String.join
        ((processFiles opts entries).files.map (fun f => f.content))) := by
    rw [byteLength_join, processFiles_fileSizeInBytes, List.map_map]
    rfl
  refine ⟨hmain, ?_, rfl⟩
  rw [generateDigestContent_fileSize, generateDigestContent_content, hmain]

/-- C3: the claim (and spec) say an oversized or unreadable file is
counted in `skippedFiles` AND leaves an explanatory fragment in the
digest; the code counts it but drops the fragment: the loop assigns the
message to `fileContent` and then `continue`s before the
`processedFiles.push`, a dead store.  On a run over one oversized and one
unreadable file, both are counted skipped and the run returns, but the
digest output is empty. -/
theorem claim3_fragment_dropped :
    (processFiles plainOpts [oversizedFile, unreadableFile]).stats.skippedFiles
        = 2 ∧
    (processFiles plainOpts [oversizedFile, unreadableFile]).files = [] ∧
    (processFiles plainOpts
        [oversizedFile, unreadableFile]).stats.includedFiles = [] := by
  decide

/-- C4: a file whose relative path is matched by the active ignore
configuration (custom pattern, or default tier when enabled) is classified
as DefaultIgnored or CustomIgnored, the classification is independent of
the minify matcher (it is never consulted), and the file contributes no
fragment, so it never appears as a minified placeholder. -/
theorem claim4_ignore_precedence (opts : Options) (f : SourceFile)
    (hig : opts.customIgnoreMatch f.sourceDir f.relativePath = true ∨
      (opts.useDefaultIgnores = true ∧
       opts.defaultIgnoreMatch f.relativePath = true))
    (_hmin : opts.minifyMatch f.sourceDir f.relativePath = true) :
    (processOne opts f = .defaultIgnored ∨
     processOne opts f = .customIgnored) ∧
    (∀ m : String → String → Bool,
      processOne { opts with minifyMatch := m } f = processOne opts f) ∧
    fragmentOf opts f = none := by
  have hresult : processOne opts f = .defaultIgnored ∨
      processOne opts f = .customIgnored := by
    unfold processOne
    by_cases h1 : ((match opts.outputAbsPath with
        | some o => joinPath f.sourceDir f.relativePath == o
        | none => false) ||
        (opts.useDefaultIgnores && opts.defaultIgnoreMatch f.relativePath))
        = true
    · left; simp [h1]
    · right
      rcases hig with hc | ⟨hd1, hd2⟩
      · simp [h1, hc]
      · exfalso
        simp [hd1, hd2] at h1
  have hirrel : ∀ m : String → String → Bool,
      processOne { opts with minifyMatch := m } f = processOne opts f := by
    intro m
    unfold processOne
    by_cases h1 : ((match opts.outputAbsPath with
        | some o => joinPath f.sourceDir f.relativePath == o
        | none => false) ||
        (opts.useDefaultIgnores && opts.defaultIgnoreMatch f.relativePath))
        = true
    · simp [h1]
    · rcases hig with hc | ⟨hd1, hd2⟩
      · simp [h1, hc]
      · exfalso
        simp [hd1, hd2] at h1
  have hfrag : fragmentOf opts f = none := by
    rcases hresult with h | h <;> simp [fragmentOf, h]
  exact ⟨hresult, hirrel, hfrag⟩

/-- C4 witness: with matchers that both hit every path, a text file is
excluded entirely and contributes no fragment. -/
theorem claim4_witness :
    fragmentOf bothMatchOpts (textFileNamed "a.txt") = none ∧
    (processOne bothMatchOpts (textFileNamed "a.txt") = .defaultIgnored ∨
     processOne bothMatchOpts (textFileNamed "a.txt") = .customIgnored) :=
  ⟨(claim4_ignore_precedence bothMatchOpts (textFileNamed "a.txt")
      (Or.inl (by decide)) (by decide)).2.2,
   (claim4_ignore_precedence bothMatchOpts (textFileNamed "a.txt")
      (Or.inl (by decide)) (by decide)).1⟩

/-- C5: in the escaped content, every occurrence of three consecutive
backticks is immediately preceded by a backslash — there is no raw
(unescaped) triple backtick, in particular none at the start of a line,
so the enclosing fenced code block cannot be terminated early by the
embedded content. -/
theorem claim5_escape_no_raw_triple (s : String) (i : Nat)
    (h : tripleAt (escapeTripleBackticks s).data i) :
    0 < i ∧
    ((escapeTripleBackticks s).data.drop (i - 1)).head? = some backslash :=
  escapeTB_safe s.data i h

/-- C5 witness: escaping five consecutive backticks leaves a triple at
position 5, and it is preceded by a backslash. -/
theorem claim5_witness :
    tripleAt (escapeTripleBackticks "`````").data 5 ∧
    (0 < 5 ∧
     ((escapeTripleBackticks "`````").data.drop 4).head? = some backslash) :=
  ⟨by decide, claim5_escape_no_raw_triple "`````" 5 (by decide)⟩

/-- C6: with whitespace removal requested, a file with a
whitespace-dependent extension such as `.py` keeps its content unchanged
while a `.js` file with identical content has every whitespace run
collapsed to one space and the result trimmed; concretely, the spec's
example content is preserved for `.py` and collapsed for `.js`, both at
the transformation step and through the whole classifier. -/
theorem claim6_whitespace_exemption :
    (∀ content : String, whitespaceStep true ".py" content = content) ∧
    (∀ content : String,
      whitespaceStep true ".js" content = removeWhitespace content) ∧
    removeWhitespace "def f():\n    return   1" = "def f(): return 1" ∧
    processOne wsOpts pyFile =
      .textIncluded "# a.py\n\n```py\ndef f():\n    return   1\n```\n\n" ∧
    processOne wsOpts jsFile =
      .textIncluded "# a.js\n\n```js\ndef f(): return 1\n```\n\n" := by
  refine ⟨?_, ?_, by decide, by rfl, by rfl⟩
  · intro c
    rfl
  · intro c
    rfl

/-- C7: the emitted fragments follow the natural (numeric-aware) order of
the source relative paths: the fragment list is the in-order image of the
naturally sorted entries, `file2` compares before `file10`, and the
spec's four-path example comes out in numeric order. -/
theorem claim7_natural_ordering (opts : Options)
    (entries : List SourceFile) :
    List.Pairwise (fun a b => naturalSortLe a b = true)
      (emittedRelPaths opts entries) ∧
    (processFiles opts entries).files =
      (sortEntries entries).filterMap (fragmentOf opts) ∧
    naturalSortCmp "file2" "file10" = .lt ∧
    ((processFiles plainOpts
        [textFileNamed "root.txt", textFileNamed "10-a/x.txt",
         textFileNamed "01-a/x.txt", textFileNamed "02-a/x.txt"]).files.map
      (fun f => f.fileName)) =
      ["01-a/x.txt", "02-a/x.txt", "10-a/x.txt", "root.txt"] := by
  refine ⟨?_, processFiles_files opts entries, by decide, by decide⟩
  rw [emittedRelPaths, filterMap_if_eq_map_filter, List.pairwise_map]
  exact List.Pairwise.sublist (List.filter_sublist _)
    (sortEntries_pairwise entries)

/-- C8: the description callback is applied exactly once per minified
file — the call log has exactly `minifiedCount` entries and each emitted
minified fragment is the single application of the callback to that
file's metadata — and a callback returning `defaultText` unchanged gives
a result identical to supplying no callback. -/
theorem claim8_minify_callback (opts : Options)
    (entries : List SourceFile) :
    (minifyCallLog opts entries).length =
      (processFiles opts entries).stats.minifiedCount ∧
    processFiles
        { opts with
          minifyFileDescription := some (fun md => md.defaultText) }
        entries =
      processFiles { opts with minifyFileDescription := none } entries ∧
    (processFiles opts entries).files =
      (sortEntries entries).filterMap (fragmentOf opts) := by
  refine ⟨?_, ?_, processFiles_files opts entries⟩
  · rw [minifyCallLog, length_filterMap_eq_countP, processFiles_minifiedCount]
    rw [(sortEntries_perm entries).countP_eq]
    apply List.countP_congr
    intro f _
    rcases h : processOne opts f <;> simp [h, isMinifiedResult]
  · simp only [processFiles, runFold_cb_defaultText]

/-- C9: `writeDigestToFile` writes the content to the sibling temp file,
succeeds exactly when the observed written size equals the content's
UTF-8 byte length, in which case the temp file is renamed over the
target; on a mismatch it raises after deleting the temp file, leaving the
target exactly as before — never partially written, with no temp
artifact left behind in either case. -/
theorem claim9_atomic_write (fs0 : FsState) (content outputPath : String)
    (observedTempSize : Nat) :
    ((writeDigestToFile fs0 content outputPath observedTempSize).result =
        .ok () ↔ observedTempSize = byteLength content) ∧
    ((writeDigestToFile fs0 content outputPath observedTempSize).result =
        .ok () →
      lookupFile
        (writeDigestToFile fs0 content outputPath observedTempSize).fs
        outputPath = some content ∧
      lookupFile
        (writeDigestToFile fs0 content outputPath observedTempSize).fs
        (outputPath ++ ".temp") = none) ∧
    (∀ e, (writeDigestToFile fs0 content outputPath observedTempSize).result
        = .error e →
      lookupFile
        (writeDigestToFile fs0 content outputPath observedTempSize).fs
        (outputPath ++ ".temp") = none ∧
      lookupFile
        (writeDigestToFile fs0 content outputPath observedTempSize).fs
        outputPath = lookupFile fs0 outputPath) := by
  have htemp : outputPath ++ ".temp" ≠ outputPath := append_temp_ne _
  have hout : outputPath ≠ outputPath ++ ".temp" := (append_temp_ne _).symm
  by_cases hsz : observedTempSize = byteLength content
  · simp only [writeDigestToFile, if_pos hsz]
    refine ⟨by simp [hsz], ?_, ?_⟩
    · intro _
      rw [renameFile, lookupFile_setFile_self]
      constructor
      · rw [lookupFile_setFile_self]
      · rw [lookupFile_setFile_other _ _ htemp, lookupFile_removeFile_self]
    · intro e he
      simp at he
  · simp only [writeDigestToFile, if_neg hsz]
    refine ⟨by simp [hsz], ?_, ?_⟩
    · intro hok
      simp at hok
    · intro e _
      constructor
      · rw [lookupFile_removeFile_self]
      · rw [lookupFile_removeFile_other _ hout,
          lookupFile_setFile_other _ _ hout]

/-- C9 witness: with the old output present, a correct-size write
replaces the target and removes the temp file, and a mismatched write
leaves the old target untouched with no temp file. -/
theorem claim9_witness :
    (lookupFile (writeDigestToFile fs0ex "hello" "out.md" 5).fs "out.md" =
        some "hello" ∧
     lookupFile (writeDigestToFile fs0ex "hello" "out.md" 5).fs
        ("out.md" ++ ".temp") = none) ∧
    (lookupFile (writeDigestToFile fs0ex "hello" "out.md" 4).fs
        ("out.md" ++ ".temp") = none ∧
     lookupFile (writeDigestToFile fs0ex "hello" "out.md" 4).fs "out.md" =
        lookupFile fs0ex "out.md") :=
  ⟨(claim9_atomic_write fs0ex "hello" "out.md" 5).2.1 (by rfl),
   (claim9_atomic_write fs0ex "hello" "out.md" 4).2.2
      "File size mismatch after writing" (by rfl)⟩

/-- C10: every run is internally consistent: the number of emitted files,
the included counter and the included-names list length agree; the
included counter splits into minified plus binary-or-SVG plus
full-content text files; and the grand total splits into the two ignore
buckets, the included files and the skipped files. -/
theorem claim10_internal_consistency (opts : Options)
    (entries : List SourceFile) :
    (processFiles opts entries).files.length =
      (processFiles opts entries).stats.includedCount ∧
    (processFiles opts entries).stats.includedCount =
      (processFiles opts entries).stats.includedFiles.length ∧
    (processFiles opts entries).stats.includedCount =
      (processFiles opts entries).stats.minifiedCount +
      (processFiles opts entries).stats.binaryAndSvgFileCount +
      entries.countP (fun f => isTextResult (processOne opts f)) ∧
    (processFiles opts entries).stats.totalFiles =
      (processFiles opts entries).stats.defaultIgnoredCount +
      (processFiles opts entries).stats.customIgnoredCount +
      (processFiles opts entries).stats.includedCount +
      (processFiles opts entries).stats.skippedFiles := by
  refine ⟨?_, ?_, ?_, ?_⟩
  · rw [processFiles_files, length_filterMap_eq_countP,
      processFiles_includedCount, (sortEntries_perm entries).countP_eq]
    apply List.countP_congr
    intro f _
    rcases h : processOne opts f <;> simp [h, fragmentOf, isIncludedResult]
  · rw [processFiles_includedFiles, length_filterMap_eq_countP,
      processFiles_includedCount, (sortEntries_perm entries).countP_eq]
    apply List.countP_congr
    intro f _
    simp [includedNameOf]
  · rw [processFiles_includedCount, processFiles_minifiedCount,
      processFiles_binaryCount]
    have h := included_partition opts entries
    omega
  · rw [processFiles_totalFiles, processFiles_includedCount,
      processFiles_defaultIgnoredCount, processFiles_customIgnoredCount,
      processFiles_skippedFiles]
    have h := classification_partition opts entries
    omega

end AiDigest
